import Mathlib

/-!
Shallow embedding of the Smartflo inbound voice bot
(`audio/converter.py`, `smartflo/session.py`, `gemini_live/client.py`).

Byte strings are modelled as `List Nat` with every element `< 256`;
text strings (stream ids, base64 text, mime types) are `List Nat` of
character codes.  16-bit PCM samples are read in host (little-endian)
byte order, as CPython's `audioop` does via `GETINT16`.
-/

/-- Interpret an unsigned 16-bit code as a signed 16-bit sample. -/
def uToInt16 (n : Nat) : Int :=
  if n < 32768 then (n : Int) else (n : Int) - 65536

/-- Signed 16-bit sample back to its unsigned 16-bit code. -/
def int16ToU (x : Int) : Nat :=
  (x % 65536).toNat

/-- Little-endian byte pair of a signed 16-bit sample. -/
def int16ToBytes (x : Int) : List Nat :=
  [int16ToU x % 256, int16ToU x / 256]

/-- Group a byte string into signed 16-bit samples (little-endian pairs);
a trailing odd byte is dropped (callers check evenness first). -/
def bytesToSamples : List Nat → List Int
  | lo :: hi :: rest => uToInt16 (lo + 256 * hi) :: bytesToSamples rest
  | _ => []

/-! ### µ-law codec (CPython `audioop`, G.711)

`converter.py` delegates to `audioop.lin2ulaw(pcm, 2)` and
`audioop.ulaw2lin(ulaw, 2)`.  The definitions below transcribe the
C implementation (`st_14linear2ulaw`, `st_ulaw2linear16`, and the
width-2 sample loop which arithmetic-shifts each 16-bit sample right
by two into the 14-bit domain). -/

/-- Transcribes `search(val, seg_uend, 8)` of `audioop.c`: index of the first
segment end `{0x3F,0x7F,0xFF,0x1FF,0x3FF,0x7FF,0xFFF,0x1FFF}` that is
`≥ val`, or 8 when none is. -/
def search14 (v : Nat) : Nat :=
  if v ≤ 0x3F then 0
  else if v ≤ 0x7F then 1
  else if v ≤ 0xFF then 2
  else if v ≤ 0x1FF then 3
  else if v ≤ 0x3FF then 4
  else if v ≤ 0x7FF then 5
  else if v ≤ 0xFFF then 6
  else if v ≤ 0x1FFF then 7
  else 8

/-- Transcribes `st_14linear2ulaw` of `audioop.c`: encode a 14-bit signed sample
(clip at 8159, add bias 33, find the segment, pack sign/segment/quant
bits and complement). -/
def st_14linear2ulaw (pcm14 : Int) : Nat :=
  let mag : Nat := if pcm14 < 0 then (-pcm14).toNat else pcm14.toNat
  let mask : Nat := if pcm14 < 0 then 0x7F else 0xFF
  let mag' : Nat := min mag 8159
  let w : Nat := mag' + 33
  let seg : Nat := search14 w
  if 8 ≤ seg then Nat.xor 0x7F mask
  else Nat.xor (seg * 16 + (w / 2 ^ (seg + 1)) % 16) mask

/-- Per-sample encode of `audioop.lin2ulaw(·, 2)`:
the 16-bit sample is arithmetic-shifted right by 2 (floor division)
into the 14-bit domain, then companded. -/
def lin2ulawSample (x : Int) : Nat :=
  st_14linear2ulaw (Int.fdiv x 4)

/-- Transcribes `st_ulaw2linear16` of `audioop.c` (table formula): complement the
code byte, unpack quantization and segment bits, undo the bias. -/
def st_ulaw2linear16 (c : Nat) : Int :=
  let u : Nat := 255 - c % 256
  let t : Int := ((u % 16 * 8 + 132 : Nat) : Int) * (2 : Int) ^ (u / 16 % 8)
  if 128 ≤ u then 132 - t else t - 132

/-- Quantization step size (in the 16-bit domain) of the segment a
µ-law code byte lives in: adjacent codes of segment `s` decode `8·2^s`
apart. -/
def stepOfCode (c : Nat) : Nat :=
  8 * 2 ^ ((255 - c % 256) / 16 % 8)

/-- Models `AudioConverter.pcm16_to_ulaw` = `audioop.lin2ulaw(pcm, 2)`:
fails (`audioop.error`, the spec's `InvalidFrameLength`) unless the
byte length is a whole number of 16-bit frames. -/
def pcm16_to_ulaw (pcm : List Nat) : Option (List Nat) :=
  if pcm.length % 2 = 0 then some ((bytesToSamples pcm).map lin2ulawSample)
  else none

/-- Models `AudioConverter.ulaw_to_pcm16` = `audioop.ulaw2lin(ulaw, 2)`:
every µ-law byte expands to one 16-bit sample. -/
def ulaw_to_pcm16 (ulaw : List Nat) : List Nat :=
  (ulaw.map st_ulaw2linear16).flatMap int16ToBytes

/-! ### Base64 (RFC 4648 with padding, as `base64.b64encode/b64decode`)

Encoded text is a list of ASCII codes; 61 is the pad character. -/

/-- Base64 alphabet: sextet value to ASCII code. -/
def sextetChar (n : Nat) : Nat :=
  if n < 26 then 65 + n
  else if n < 52 then 97 + (n - 26)
  else if n < 62 then 48 + (n - 52)
  else if n = 62 then 43
  else 47

/-- Inverse alphabet lookup; `none` for characters outside the
base64 alphabet (including the pad character 61). -/
def charSextet (c : Nat) : Option Nat :=
  if 65 ≤ c ∧ c ≤ 90 then some (c - 65)
  else if 97 ≤ c ∧ c ≤ 122 then some (c - 97 + 26)
  else if 48 ≤ c ∧ c ≤ 57 then some (c - 48 + 52)
  else if c = 43 then some 62
  else if c = 47 then some 63
  else none

/-- Models `base64.b64encode`: three bytes per four characters, `=`-padded. -/
def b64encode : List Nat → List Nat
  | [] => []
  | [b1] => [sextetChar (b1 / 4), sextetChar (b1 % 4 * 16), 61, 61]
  | [b1, b2] =>
      [sextetChar (b1 / 4), sextetChar (b1 % 4 * 16 + b2 / 16),
       sextetChar (b2 % 16 * 4), 61]
  | b1 :: b2 :: b3 :: rest =>
      sextetChar (b1 / 4) :: sextetChar (b1 % 4 * 16 + b2 / 16) ::
      sextetChar (b2 % 16 * 4 + b3 / 64) :: sextetChar (b3 % 64) ::
      b64encode rest

/-- Models `base64.b64decode` (strict on well-formed inputs): decodes groups
of four characters, honouring trailing `=` padding; `none` on inputs
it cannot decode (the Python call raises `binascii.Error` there). -/
def b64decode? : List Nat → Option (List Nat)
  | [] => some []
  | c1 :: c2 :: c3 :: c4 :: rest =>
      match charSextet c1, charSextet c2 with
      | some d1, some d2 =>
          if c3 = 61 ∧ c4 = 61 ∧ rest = [] then
            some [d1 * 4 + d2 / 16]
          else if c4 = 61 ∧ rest = [] then
            match charSextet c3 with
            | some d3 => some [d1 * 4 + d2 / 16, d2 % 16 * 16 + d3 / 4]
            | none => none
          else
            match charSextet c3, charSextet c4 with
            | some d3, some d4 =>
                (b64decode? rest).map (fun tail =>
                  (d1 * 4 + d2 / 16) :: (d2 % 16 * 16 + d3 / 4) ::
                  (d3 % 4 * 64 + d4) :: tail)
            | _, _ => none
      | _, _ => none
  | _ => none

/-- Models `AudioConverter.to_base64`. -/
def to_base64 (audio : List Nat) : List Nat := b64encode audio

/-- Models `AudioConverter.from_base64`. -/
def from_base64 (s : List Nat) : Option (List Nat) := b64decode? s

/-! ### `smartflo/session.py` — `SmartfloAudioSession`

State as held on the Python object; stream/call ids are text
(`List Nat` of character codes), `none` when still unset.  A parsed
inbound frame is `Option SfEvent` (`none` for text that
`json.loads` rejects); `SfEvent.other` stands for any JSON object
whose `event` tag matches no branch. -/

structure SmartfloState where
  connected : Bool
  stream_sid : Option (List Nat)
  call_sid : Option (List Nat)
  audio_chunks_received : Nat
  audio_chunks_sent : Nat
deriving DecidableEq, Repr

/-- Fresh session after `accept()`. -/
def smartfloInit : SmartfloState :=
  { connected := true, stream_sid := none, call_sid := none,
    audio_chunks_received := 0, audio_chunks_sent := 0 }

inductive SfEvent where
  | connected
  | start (streamSidTop : Option (List Nat)) (streamSidStart : Option (List Nat))
          (callSid : Option (List Nat))
  | media (payload : Option (List Nat))
  | stop
  | other
deriving DecidableEq, Repr

/-- Python `or` on two optional strings: the first operand wins unless
it is falsy (`None` or the empty string). -/
def pyOrStr (a b : Option (List Nat)) : Option (List Nat) :=
  match a with
  | some s => if s = [] then b else some s
  | none => b

/-- Models `_handle_media`: skip falsy payloads, decode base64 (a decode
error is caught and logged), count the chunk, and hand the bytes to
the audio callback when one is registered.  Returns the new state and
the list of buffers delivered to the callback. -/
def handle_media (cbReg : Bool) (s : SmartfloState) (payload : Option (List Nat)) :
    SmartfloState × List (List Nat) :=
  match payload with
  | none => (s, [])
  | some p =>
      if p = [] then (s, [])
      else
        match b64decode? p with
        | none => (s, [])
        | some ulaw =>
            ({ s with audio_chunks_received := s.audio_chunks_received + 1 },
             if cbReg then [ulaw] else [])

/-- One iteration of `handle_events`: dispatch a parsed message
(`none` = malformed JSON, logged and skipped).  Returns the new state,
the audio buffers delivered to the audio callback, and whether the
loop `break`s (only on `stop`). -/
def smartfloStep (cbReg : Bool) (s : SmartfloState) (msg : Option SfEvent) :
    SmartfloState × List (List Nat) × Bool :=
  match msg with
  | none => (s, [], false)
  | some SfEvent.connected => (s, [], false)
  | some (SfEvent.start top st cs) =>
      ({ s with stream_sid := pyOrStr top st, call_sid := cs }, [], false)
  | some (SfEvent.media payload) =>
      let (s', outs) := handle_media cbReg s payload
      (s', outs, false)
  | some SfEvent.stop => (s, [], true)
  | some SfEvent.other => (s, [], false)

/-- Outbound `media` control message written by `send_audio`. -/
structure SfOutMsg where
  streamSid : List Nat
  payload : List Nat
deriving DecidableEq, Repr

/-- Models `send_audio`: no-op unless connected with a truthy `stream_sid`;
otherwise pad the µ-law frame to a multiple of 160 bytes with `0xff`
silence filler, base64-encode it into a `media` message and count it. -/
def send_audio (s : SmartfloState) (ulaw : List Nat) :
    SmartfloState × Option SfOutMsg :=
  match s.stream_sid with
  | none => (s, none)
  | some sid =>
      if s.connected = false ∨ sid = [] then (s, none)
      else
        let padded :=
          if ulaw.length % 160 ≠ 0 then
            ulaw ++ List.replicate (160 - ulaw.length % 160) 255
          else ulaw
        ({ s with audio_chunks_sent := s.audio_chunks_sent + 1 },
         some { streamSid := sid, payload := b64encode padded })

/-! ### `gemini_live/client.py` — `GeminiLiveClient`

VAD flags as held on the Python object.  Inbound messages are parsed
JSON (`none` = `json.JSONDecodeError`); a truthy check such as
`"turnComplete" in sc and sc["turnComplete"]` is one Bool field.
Callbacks registered on the client are captured by the `vadReg`,
`audioReg`, `textReg` flags; signals actually passed to
`vad_callback` are collected in order. -/

structure GeminiState where
  connected : Bool
  user_speaking : Bool
  bot_speaking : Bool
deriving DecidableEq, Repr

/-- State after `__init__`. -/
def geminiInit : GeminiState :=
  { connected := false, user_speaking := false, bot_speaking := false }

/-- Models `connect()`: open the socket and mark connected (then send the
setup message, which touches no VAD state). -/
def connectStep (s : GeminiState) : GeminiState :=
  { s with connected := true }

inductive VadSig where
  | user_stopped
  | turn_complete
  | interrupted
deriving DecidableEq, Repr

structure InlineData where
  mimeType : List Nat
  data : List Nat
deriving DecidableEq, Repr

structure GPart where
  inlineData : Option InlineData
  text : Option (List Nat)
deriving DecidableEq, Repr

structure ServerContent where
  modelTurn : Option (List GPart)
  turnComplete : Bool
  interrupted : Bool
deriving DecidableEq, Repr

structure GeminiMsg where
  serverContent : Option ServerContent
  setupComplete : Bool
deriving DecidableEq, Repr

/-- Models `mime_type.startswith("audio/")`. -/
def mimeIsAudio (m : List Nat) : Bool :=
  decide (m.take 6 = [97, 117, 100, 105, 111, 47])

/-- Audio handling of one part: `none` means the part's base64 data
raised (aborting the message dispatch); `some none` means no audio was
delivered; `some (some a)` delivers `a` to the audio callback. -/
def partAudio (audioReg : Bool) (p : GPart) : Option (Option (List Nat)) :=
  match p.inlineData with
  | none => some none
  | some d =>
      if mimeIsAudio d.mimeType ∧ audioReg then
        if d.data = [] then some none
        else
          match b64decode? d.data with
          | some a => some (some a)
          | none => none
      else some none

/-- Text handling of one part: delivered only when present, truthy and
a transcript callback is registered. -/
def partText (textReg : Bool) (p : GPart) : Option (List Nat) :=
  match p.text with
  | none => none
  | some t => if textReg ∧ t ≠ [] then some t else none

/-- The `for part in model_turn.get("parts", [])` loop: audio and text
deliveries in order, and whether the loop ran to completion (`false`
when a base64 decode raised, which abandons the rest of the message). -/
def processParts (audioReg textReg : Bool) :
    List GPart → List (List Nat) × List (List Nat) × Bool
  | [] => ([], [], true)
  | p :: rest =>
      match partAudio audioReg p with
      | none => ([], [], false)
      | some aOpt =>
          let (as_, ts, ok) := processParts audioReg textReg rest
          (aOpt.toList ++ as_, (partText textReg p).toList ++ ts, ok)

/-- Result of dispatching one inbound Gemini message. -/
structure GeminiStepOut where
  state : GeminiState
  vad : List VadSig
  audio : List (List Nat)
  text : List (List Nat)
deriving DecidableEq, Repr

/-- One iteration of `receive_events`: parse and dispatch a message
(`none` = malformed JSON: logged, nothing changes).  The duplicated
`if not self.bot_speaking` branch inside the `modelTurn` block and the
duplicated `interrupted` block are transcribed as in the source; an
exception from base64-decoding an audio part is caught by the
per-message handler, abandoning the remaining blocks. -/
def receive_event (vadReg audioReg textReg : Bool) (s : GeminiState)
    (msg : Option GeminiMsg) : GeminiStepOut :=
  match msg with
  | none => ⟨s, [], [], []⟩
  | some m =>
      match m.serverContent with
      | none => ⟨s, [], [], []⟩
      | some sc =>
          let mt :
              GeminiState × List VadSig × List (List Nat) × List (List Nat) × Bool :=
            match sc.modelTurn with
            | none => (s, [], [], [], true)
            | some parts =>
                let s1 :=
                  if s.bot_speaking = false then
                    { s with bot_speaking := true, user_speaking := false }
                  else s
                let v1 : List VadSig :=
                  if s.bot_speaking = false ∧ vadReg then [VadSig.user_stopped] else []
                let (as_, ts, ok) := processParts audioReg textReg parts
                (s1, v1, as_, ts, ok)
          match mt with
          | (s1, v1, as_, ts, ok) =>
            if ok = false then ⟨s1, v1, as_, ts⟩
            else
              let s2 := if sc.turnComplete then { s1 with bot_speaking := false } else s1
              let v2 : List VadSig :=
                if sc.turnComplete ∧ vadReg then [VadSig.turn_complete] else []
              let s3 :=
                if sc.interrupted then
                  { s2 with bot_speaking := false, user_speaking := true }
                else s2
              let v3 : List VadSig :=
                if sc.interrupted ∧ vadReg then
                  [VadSig.interrupted, VadSig.turn_complete]
                else []
              let s4 := if sc.interrupted then { s3 with bot_speaking := false } else s3
              let v4 : List VadSig :=
                if sc.interrupted ∧ vadReg then [VadSig.interrupted] else []
              ⟨s4, v1 ++ v2 ++ v3 ++ v4, as_, ts⟩

/-- Result of `send_audio_chunk`: new state, whether a realtime-input
message was transmitted, whether the user-started debug line fired,
and the (always empty) list of VAD callback invocations. -/
structure SendChunkOut where
  state : GeminiState
  sent : Bool
  logStart : Bool
  vad : List VadSig
deriving DecidableEq, Repr

/-- Models `send_audio_chunk`: no-op unless connected; marks
`user_speaking := true` (logging the edge), transmits the chunk.  It
never invokes `vad_callback`. -/
def send_audio_chunk (s : GeminiState) (pcm : List Nat) : SendChunkOut :=
  if s.connected = false then ⟨s, false, false, []⟩
  else
    ⟨{ s with user_speaking := true }, true, !s.user_speaking, []⟩

/-- Holds when `processParts` completed without a decode exception (vacuously true
when the message has no `modelTurn`). -/
def partsOk (audioReg textReg : Bool) : Option (List GPart) → Bool
  | none => true
  | some ps => (processParts audioReg textReg ps).2.2

/-- The spec's turn-phase invariant: `turnPhase` is a well-defined
element of `{Idle, UserSpeaking, BotSpeaking}`, i.e. the two flags are
not both set. -/
def turnPhaseConsistent (s : GeminiState) : Prop :=
  s.user_speaking = false ∨ s.bot_speaking = false

/-- One client step: `connect`, `send_audio_chunk` (only reachable
while connected), or one `receive_events` dispatch (the receive loop
raises unless connected). -/
inductive GStep : GeminiState → GeminiState → Prop where
  | connect (s : GeminiState) : GStep s (connectStep s)
  | send (s : GeminiState) (pcm : List Nat) : s.connected = true →
      GStep s (send_audio_chunk s pcm).state
  | recv (s : GeminiState) (vr ar tr : Bool) (msg : Option GeminiMsg) :
      s.connected = true → GStep s (receive_event vr ar tr s msg).state

/-- States reachable from `__init__` by client steps. -/
inductive GReach : GeminiState → Prop where
  | init : GReach geminiInit
  | step {s s' : GeminiState} : GReach s → GStep s s' → GReach s'

/-- Client steps restricted so that `send_audio_chunk` is never called
while the bot is speaking. -/
inductive GStepSafe : GeminiState → GeminiState → Prop where
  | connect (s : GeminiState) : GStepSafe s (connectStep s)
  | send (s : GeminiState) (pcm : List Nat) : s.connected = true →
      s.bot_speaking = false → GStepSafe s (send_audio_chunk s pcm).state
  | recv (s : GeminiState) (vr ar tr : Bool) (msg : Option GeminiMsg) :
      s.connected = true → GStepSafe s (receive_event vr ar tr s msg).state

/-- States reachable from `__init__` by restricted client steps. -/
inductive GReachSafe : GeminiState → Prop where
  | init : GReachSafe geminiInit
  | step {s s' : GeminiState} : GReachSafe s → GStepSafe s s' → GReachSafe s'

/-! ### µ-law round-trip bound, proved per segment -/

set_option maxRecDepth 4096 in
theorem xor_byte_comp : ∀ a : Fin 256, Nat.xor a.val 255 = 255 - a.val := by decide

theorem xor_half_comp : ∀ a : Fin 128, Nat.xor a.val 127 = 127 - a.val := by decide

theorem xorFF (a : Nat) (h : a < 256) : Nat.xor a 255 = 255 - a :=
  xor_byte_comp ⟨a, h⟩

theorem xor7F (a : Nat) (h : a < 128) : Nat.xor a 127 = 127 - a :=
  xor_half_comp ⟨a, h⟩

/-- Decoding a positive-sign code word (complemented with mask `0xFF`). -/
theorem decodeXorFF (a : Nat) (h : a < 128) :
    st_ulaw2linear16 (Nat.xor a 255)
        = ((a % 16 * 8 + 132 : Nat) : Int) * (2 : Int) ^ (a / 16) - 132
      ∧ stepOfCode (Nat.xor a 255) = 8 * 2 ^ (a / 16) := by
  rw [xorFF a (by omega)]
  simp only [st_ulaw2linear16, stepOfCode]
  have h1 : (255 - a) % 256 = 255 - a := Nat.mod_eq_of_lt (by omega)
  rw [h1]
  have h2 : 255 - (255 - a) = a := by omega
  rw [h2]
  have h3 : a / 16 % 8 = a / 16 := Nat.mod_eq_of_lt (by omega)
  rw [h3]
  rw [if_neg (by omega : ¬ 128 ≤ a)]
  exact ⟨rfl, rfl⟩

/-- Decoding a negative-sign code word (complemented with mask `0x7F`). -/
theorem decodeXor7F (a : Nat) (h : a < 128) :
    st_ulaw2linear16 (Nat.xor a 127)
        = 132 - ((a % 16 * 8 + 132 : Nat) : Int) * (2 : Int) ^ (a / 16)
      ∧ stepOfCode (Nat.xor a 127) = 8 * 2 ^ (a / 16) := by
  rw [xor7F a h]
  simp only [st_ulaw2linear16, stepOfCode]
  have h1 : (127 - a) % 256 = 127 - a := Nat.mod_eq_of_lt (by omega)
  rw [h1]
  have h2 : 255 - (127 - a) = 128 + a := by omega
  rw [h2]
  have h3 : (128 + a) % 16 = a % 16 := by omega
  rw [h3]
  have h4 : (128 + a) / 16 % 8 = a / 16 := by omega
  rw [h4]
  rw [if_pos (by omega : 128 ≤ 128 + a)]
  exact ⟨rfl, rfl⟩

/-- The segment index found by `search14` brackets the biased magnitude. -/
theorem search14_spec (w : Nat) (hlo : 33 ≤ w) (hhi : w ≤ 8191) :
    search14 w < 8 ∧ 2 ^ search14 w * 32 ≤ w ∧ w < 2 ^ search14 w * 64 := by
  unfold search14
  split_ifs <;> norm_num <;> omega

/-- Within a segment, the decoded quantization level recovers the biased
magnitude up to the segment's rounding. -/
theorem seg_decoded (w s : Nat) (hlo : 2 ^ s * 32 ≤ w) (hhi : w < 2 ^ s * 64) :
    ((w / 2 ^ (s + 1) % 16 * 8 + 132 : Nat) : Int) * (2 : Int) ^ s
      = 4 * (w : Int) - 4 * ((w % 2 ^ (s + 1) : Nat) : Int) + 4 * (2 : Int) ^ s := by
  have hpos : 0 < 2 ^ (s + 1) := Nat.pos_pow_of_pos _ (by norm_num)
  have he : (2 : Nat) ^ (s + 1) = 2 ^ s * 2 := pow_succ 2 s
  have hdm := Nat.div_add_mod w (2 ^ (s + 1))
  have ht16 : 16 ≤ w / 2 ^ (s + 1) := by
    rw [Nat.le_div_iff_mul_le hpos]
    omega
  have ht32 : w / 2 ^ (s + 1) < 32 := by
    rw [Nat.div_lt_iff_lt_mul hpos]
    omega
  obtain ⟨q, hq⟩ : ∃ q, w / 2 ^ (s + 1) = 16 + q := ⟨w / 2 ^ (s + 1) - 16, by omega⟩
  rw [hq] at hdm ⊢
  have hq16 : q < 16 := by omega
  have hqmod : (16 + q) % 16 = q := by omega
  rw [hqmod]
  have hdm2 : 2 ^ s * 2 * (16 + q) + w % 2 ^ (s + 1) = w := by
    rw [← he]; exact hdm
  have hdmZ : ((2 ^ s : Nat) : Int) * 2 * (16 + (q : Int)) + ((w % 2 ^ (s + 1) : Nat) : Int)
      = (w : Int) := by exact_mod_cast hdm2
  push_cast
  push_cast at hdmZ
  linear_combination (4 : Int) * hdmZ

/-- Round-trip bound for non-clipped nonnegative samples:
`x = 4*m + r` with 14-bit magnitude `m`. -/
theorem roundtrip_pos (m : Nat) (hm : m ≤ 8158) (r : Int) (hr0 : 0 ≤ r) (hr4 : r < 4) :
    (st_ulaw2linear16 (st_14linear2ulaw (m : Int)) - (4 * (m : Int) + r)).natAbs
      ≤ stepOfCode (st_14linear2ulaw (m : Int)) := by
  obtain ⟨hs8, hlo, hhi⟩ := search14_spec (m + 33) (by omega) (by omega)
  have henc : st_14linear2ulaw (m : Int)
      = Nat.xor (search14 (m + 33) * 16 + (m + 33) / 2 ^ (search14 (m + 33) + 1) % 16) 255 := by
    simp only [st_14linear2ulaw]
    rw [if_neg (by omega : ¬ ((m : Int) < 0)), if_neg (by omega : ¬ ((m : Int) < 0))]
    rw [Int.toNat_natCast, Nat.min_eq_left (by omega : m ≤ 8159)]
    rw [if_neg (by omega : ¬ 8 ≤ search14 (m + 33))]
  rw [henc]
  have hqlt : (m + 33) / 2 ^ (search14 (m + 33) + 1) % 16 < 16 := Nat.mod_lt _ (by norm_num)
  have huval : search14 (m + 33) * 16 + (m + 33) / 2 ^ (search14 (m + 33) + 1) % 16 < 128 := by
    omega
  rw [(decodeXorFF _ huval).1, (decodeXorFF _ huval).2]
  rw [show (search14 (m + 33) * 16 + (m + 33) / 2 ^ (search14 (m + 33) + 1) % 16) % 16
        = (m + 33) / 2 ^ (search14 (m + 33) + 1) % 16 from by omega]
  rw [show (search14 (m + 33) * 16 + (m + 33) / 2 ^ (search14 (m + 33) + 1) % 16) / 16
        = search14 (m + 33) from by omega]
  rw [seg_decoded (m + 33) (search14 (m + 33)) hlo hhi]
  have hrho : (m + 33) % 2 ^ (search14 (m + 33) + 1) < 2 ^ (search14 (m + 33) + 1) :=
    Nat.mod_lt _ (Nat.pos_pow_of_pos _ (by norm_num))
  have he : (2 : Nat) ^ (search14 (m + 33) + 1) = 2 ^ search14 (m + 33) * 2 := pow_succ 2 _
  have hK : 0 < (2 : Nat) ^ search14 (m + 33) := Nat.pos_pow_of_pos _ (by norm_num)
  have hcast : ((2 ^ search14 (m + 33) : Nat) : Int) = (2 : Int) ^ search14 (m + 33) := by
    push_cast
    rfl
  rw [← hcast]
  omega

/-- Round-trip bound for non-clipped negative samples:
`x = -4*m + r` with 14-bit magnitude `m`. -/
theorem roundtrip_neg (m : Nat) (hm1 : 1 ≤ m) (hm : m ≤ 8158) (r : Int)
    (hr0 : 0 ≤ r) (hr4 : r < 4) :
    (st_ulaw2linear16 (st_14linear2ulaw (-(m : Int))) - (4 * -(m : Int) + r)).natAbs
      ≤ stepOfCode (st_14linear2ulaw (-(m : Int))) := by
  obtain ⟨hs8, hlo, hhi⟩ := search14_spec (m + 33) (by omega) (by omega)
  have henc : st_14linear2ulaw (-(m : Int))
      = Nat.xor (search14 (m + 33) * 16 + (m + 33) / 2 ^ (search14 (m + 33) + 1) % 16) 127 := by
    simp only [st_14linear2ulaw]
    rw [if_pos (by omega : -(m : Int) < 0), if_pos (by omega : -(m : Int) < 0)]
    rw [neg_neg, Int.toNat_natCast, Nat.min_eq_left (by omega : m ≤ 8159)]
    rw [if_neg (by omega : ¬ 8 ≤ search14 (m + 33))]
  rw [henc]
  have hqlt : (m + 33) / 2 ^ (search14 (m + 33) + 1) % 16 < 16 := Nat.mod_lt _ (by norm_num)
  have huval : search14 (m + 33) * 16 + (m + 33) / 2 ^ (search14 (m + 33) + 1) % 16 < 128 := by
    omega
  rw [(decodeXor7F _ huval).1, (decodeXor7F _ huval).2]
  rw [show (search14 (m + 33) * 16 + (m + 33) / 2 ^ (search14 (m + 33) + 1) % 16) % 16
        = (m + 33) / 2 ^ (search14 (m + 33) + 1) % 16 from by omega]
  rw [show (search14 (m + 33) * 16 + (m + 33) / 2 ^ (search14 (m + 33) + 1) % 16) / 16
        = search14 (m + 33) from by omega]
  rw [seg_decoded (m + 33) (search14 (m + 33)) hlo hhi]
  have hrho : (m + 33) % 2 ^ (search14 (m + 33) + 1) < 2 ^ (search14 (m + 33) + 1) :=
    Nat.mod_lt _ (Nat.pos_pow_of_pos _ (by norm_num))
  have he : (2 : Nat) ^ (search14 (m + 33) + 1) = 2 ^ search14 (m + 33) * 2 := pow_succ 2 _
  have hK : 0 < (2 : Nat) ^ search14 (m + 33) := Nat.pos_pow_of_pos _ (by norm_num)
  have hcast : ((2 ^ search14 (m + 33) : Nat) : Int) = (2 : Int) ^ search14 (m + 33) := by
    push_cast
    rfl
  rw [← hcast]
  omega

/-- Clipped positive samples (magnitude at or above the clip point). -/
theorem roundtrip_pos_clip (m : Nat) (h1 : 8159 ≤ m) (h2 : m ≤ 8191) (r : Int)
    (hr0 : 0 ≤ r) (hr4 : r < 4) :
    (st_ulaw2linear16 (st_14linear2ulaw (m : Int)) - (4 * (m : Int) + r)).natAbs
      ≤ stepOfCode (st_14linear2ulaw (m : Int)) := by
  have henc : st_14linear2ulaw (m : Int) = 128 := by
    simp only [st_14linear2ulaw]
    rw [if_neg (by omega : ¬ ((m : Int) < 0)), if_neg (by omega : ¬ ((m : Int) < 0))]
    rw [Int.toNat_natCast, Nat.min_eq_right (by omega : 8159 ≤ m)]
    rfl
  rw [henc]
  rw [show st_ulaw2linear16 128 = 32124 from by decide]
  rw [show stepOfCode 128 = 1024 from by decide]
  omega

/-- Clipped negative samples. -/
theorem roundtrip_neg_clip (m : Nat) (h1 : 8159 ≤ m) (h2 : m ≤ 8192) (r : Int)
    (hr0 : 0 ≤ r) (hr4 : r < 4) :
    (st_ulaw2linear16 (st_14linear2ulaw (-(m : Int))) - (4 * -(m : Int) + r)).natAbs
      ≤ stepOfCode (st_14linear2ulaw (-(m : Int))) := by
  have henc : st_14linear2ulaw (-(m : Int)) = 0 := by
    simp only [st_14linear2ulaw]
    rw [if_pos (by omega : -(m : Int) < 0), if_pos (by omega : -(m : Int) < 0)]
    rw [neg_neg, Int.toNat_natCast, Nat.min_eq_right (by omega : 8159 ≤ m)]
    rfl
  rw [henc]
  rw [show st_ulaw2linear16 0 = -32124 from by decide]
  rw [show stepOfCode 0 = 1024 from by decide]
  omega

/-- Per-sample µ-law round-trip bound: encoding a 16-bit sample and
decoding it back lands within one quantization step of the original. -/
theorem ulaw_roundtrip_sample (x : Int) (hx1 : -32768 ≤ x) (hx2 : x < 32768) :
    (st_ulaw2linear16 (lin2ulawSample x) - x).natAbs ≤ stepOfCode (lin2ulawSample x) := by
  have hfd : x.fdiv 4 = x / 4 := Int.fdiv_eq_ediv x (by norm_num)
  have hx4 : x = 4 * (x / 4) + x % 4 := by omega
  have hr0 : 0 ≤ x % 4 := by omega
  have hr4 : x % 4 < 4 := by omega
  unfold lin2ulawSample
  rw [hfd]
  rcases le_or_lt 0 (x / 4) with hv | hv
  · obtain ⟨m, hmx⟩ : ∃ m : Nat, (m : Int) = x / 4 := ⟨(x / 4).toNat, Int.toNat_of_nonneg hv⟩
    rw [← hmx]
    rcases le_or_lt m 8158 with hm | hm
    · have := roundtrip_pos m hm (x % 4) hr0 hr4
      rw [show (4 : Int) * (m : Int) + x % 4 = x from by omega] at this
      exact this
    · have hm2 : m ≤ 8191 := by omega
      have := roundtrip_pos_clip m (by omega) hm2 (x % 4) hr0 hr4
      rw [show (4 : Int) * (m : Int) + x % 4 = x from by omega] at this
      exact this
  · obtain ⟨m, hmx⟩ : ∃ m : Nat, (m : Int) = -(x / 4) := ⟨(-(x / 4)).toNat, Int.toNat_of_nonneg (by omega)⟩
    have hneg : x / 4 = -(m : Int) := by omega
    rw [hneg]
    have hm1 : 1 ≤ m := by omega
    rcases le_or_lt m 8158 with hm | hm
    · have := roundtrip_neg m hm1 hm (x % 4) hr0 hr4
      rw [show (4 : Int) * -(m : Int) + x % 4 = x from by omega] at this
      exact this
    · have hm2 : m ≤ 8192 := by omega
      have := roundtrip_neg_clip m (by omega) hm2 (x % 4) hr0 hr4
      rw [show (4 : Int) * -(m : Int) + x % 4 = x from by omega] at this
      exact this

/-! ### Base64 round trip -/

set_option maxRecDepth 2048 in
theorem charSextet_sextetChar : ∀ n : Fin 64, charSextet (sextetChar n.val) = some n.val := by
  decide

set_option maxRecDepth 2048 in
theorem sextetChar_ne_pad : ∀ n : Fin 64, sextetChar n.val ≠ 61 := by decide

theorem cs_inv (n : Nat) (h : n < 64) : charSextet (sextetChar n) = some n :=
  charSextet_sextetChar ⟨n, h⟩

theorem cs_ne61 (n : Nat) (h : n < 64) : sextetChar n ≠ 61 :=
  sextetChar_ne_pad ⟨n, h⟩

/-- Decoding inverts encoding on every byte string (helper shared by the
framing and transmit theorems). -/
theorem b64_roundtrip_aux : ∀ bs : List Nat, (∀ b ∈ bs, b < 256) →
    b64decode? (b64encode bs) = some bs
  | [], _ => rfl
  | [b1], h => by
      have hb1 : b1 < 256 := h b1 (by simp)
      have e1 := cs_inv (b1 / 4) (by omega)
      have e2 := cs_inv (b1 % 4 * 16) (by omega)
      simp only [b64encode, b64decode?, e1, e2]
      rw [if_pos (by simp)]
      simp only [Option.some.injEq, List.cons.injEq, and_true]
      omega
  | [b1, b2], h => by
      have hb1 : b1 < 256 := h b1 (by simp)
      have hb2 : b2 < 256 := h b2 (by simp)
      have e1 := cs_inv (b1 / 4) (by omega)
      have e2 := cs_inv (b1 % 4 * 16 + b2 / 16) (by omega)
      have e3 := cs_inv (b2 % 16 * 4) (by omega)
      have n3 := cs_ne61 (b2 % 16 * 4) (by omega)
      simp only [b64encode, b64decode?, e1, e2]
      rw [if_neg (by simp [n3])]
      rw [if_pos (by simp)]
      simp only [e3, Option.some.injEq, List.cons.injEq, and_true]
      omega
  | b1 :: b2 :: b3 :: rest, h => by
      have hb1 : b1 < 256 := h b1 (by simp)
      have hb2 : b2 < 256 := h b2 (by simp)
      have hb3 : b3 < 256 := h b3 (by simp)
      have ih := b64_roundtrip_aux rest (fun b hb => h b (by simp [hb]))
      have e1 := cs_inv (b1 / 4) (by omega)
      have e2 := cs_inv (b1 % 4 * 16 + b2 / 16) (by omega)
      have e3 := cs_inv (b2 % 16 * 4 + b3 / 64) (by omega)
      have e4 := cs_inv (b3 % 64) (by omega)
      have n3 := cs_ne61 (b2 % 16 * 4 + b3 / 64) (by omega)
      have n4 := cs_ne61 (b3 % 64) (by omega)
      simp only [b64encode, b64decode?, e1, e2]
      rw [if_neg (by simp [n3])]
      rw [if_neg (by simp [n4])]
      simp only [e3, e4, ih, Option.map, Option.some.injEq, List.cons.injEq]
      refine ⟨by omega, by omega, by omega, trivial⟩

/-! ### Buffer-level codec lemmas -/

set_option maxRecDepth 4096 in
theorem st_range_fin : ∀ c : Fin 256,
    -32124 ≤ st_ulaw2linear16 c.val ∧ st_ulaw2linear16 c.val ≤ 32124 := by decide

theorem st_mod (c : Nat) : st_ulaw2linear16 (c % 256) = st_ulaw2linear16 c := by
  unfold st_ulaw2linear16
  rw [Nat.mod_mod_of_dvd c dvd_rfl]

theorem st_range (c : Nat) :
    -32124 ≤ st_ulaw2linear16 c ∧ st_ulaw2linear16 c ≤ 32124 := by
  have h := st_range_fin ⟨c % 256, Nat.mod_lt _ (by norm_num)⟩
  rwa [st_mod c] at h

theorem uToInt16_int16ToU (y : Int) (h1 : -32768 ≤ y) (h2 : y < 32768) :
    uToInt16 (int16ToU y) = y := by
  unfold uToInt16 int16ToU
  split_ifs <;> omega

theorem int16ToU_lt (y : Int) : int16ToU y < 65536 := by
  unfold int16ToU
  omega

theorem bytesToSamples_cons (a b : Nat) (rest : List Nat) :
    bytesToSamples (a :: b :: rest) = uToInt16 (a + 256 * b) :: bytesToSamples rest := rfl

/-- Regrouping the little-endian bytes of in-range samples recovers them. -/
theorem bytesToSamples_flat (ys : List Int)
    (h : ∀ y ∈ ys, -32768 ≤ y ∧ y < 32768) :
    bytesToSamples (ys.flatMap int16ToBytes) = ys := by
  induction ys with
  | nil => rfl
  | cons y ys ih =>
      have hy := h y (by simp)
      have hlt := int16ToU_lt y
      have hsh : (y :: ys).flatMap int16ToBytes
          = int16ToU y % 256 :: int16ToU y / 256 :: ys.flatMap int16ToBytes := by
        simp [int16ToBytes]
      rw [hsh, bytesToSamples_cons]
      rw [show int16ToU y % 256 + 256 * (int16ToU y / 256) = int16ToU y from by omega]
      rw [uToInt16_int16ToU y hy.1 hy.2]
      rw [ih (fun z hz => h z (by simp [hz]))]

theorem flat_bytes_length (ys : List Int) :
    (ys.flatMap int16ToBytes).length = 2 * ys.length := by
  induction ys with
  | nil => rfl
  | cons y ys ih => simp [int16ToBytes, ih]; omega

theorem bytesToSamples_length : ∀ bs : List Nat,
    (bytesToSamples bs).length = bs.length / 2
  | [] => rfl
  | [_] => by simp [bytesToSamples]
  | _ :: _ :: rest => by
      simp only [bytesToSamples, List.length_cons, bytesToSamples_length rest]
      omega

theorem bytesToSamples_range : ∀ bs : List Nat, (∀ b ∈ bs, b < 256) →
    ∀ y ∈ bytesToSamples bs, -32768 ≤ y ∧ y < 32768
  | [], _ => by simp [bytesToSamples]
  | [_], _ => by simp [bytesToSamples]
  | lo :: hi :: rest, h => by
      have hlo : lo < 256 := h lo (by simp)
      have hhi : hi < 256 := h hi (by simp)
      intro y hy
      simp only [bytesToSamples, List.mem_cons] at hy
      rcases hy with rfl | hy
      · unfold uToInt16
        split_ifs <;> omega
      · exact bytesToSamples_range rest (fun b hb => h b (by simp [hb])) y hy

theorem forall2_map {α β : Type} (R : α → β → Prop) (f : α → β) :
    ∀ l : List α, (∀ x ∈ l, R x (f x)) → List.Forall₂ R l (l.map f)
  | [], _ => List.Forall₂.nil
  | x :: xs, h =>
      List.Forall₂.cons (h x (by simp))
        (forall2_map R f xs (fun z hz => h z (by simp [hz])))

/-! ### Claim theorems: audio codec -/

/-- C6: for every byte buffer of positive even length, decoding the
µ-law encoding of the buffer yields a buffer of the same length whose
samples each lie within one quantization step (the step size of the
code word's segment) of the original samples. -/
theorem C6_ulaw_roundtrip_bound (bs : List Nat) (hb : ∀ b ∈ bs, b < 256)
    (hev : bs.length % 2 = 0) (hpos : 0 < bs.length) :
    ∃ us, pcm16_to_ulaw bs = some us ∧
      (ulaw_to_pcm16 us).length = bs.length ∧
      List.Forall₂ (fun x y => (y - x).natAbs ≤ stepOfCode (lin2ulawSample x))
        (bytesToSamples bs) (bytesToSamples (ulaw_to_pcm16 us)) := by
  refine ⟨(bytesToSamples bs).map lin2ulawSample, ?_, ?_, ?_⟩
  · unfold pcm16_to_ulaw
    rw [if_pos hev]
  · unfold ulaw_to_pcm16
    rw [List.map_map, flat_bytes_length, List.length_map, bytesToSamples_length]
    omega
  · unfold ulaw_to_pcm16
    rw [List.map_map]
    rw [bytesToSamples_flat _ (fun y hy => by
      rcases List.mem_map.mp hy with ⟨x, hx, rfl⟩
      simp only [Function.comp_apply]
      have := st_range (lin2ulawSample x)
      exact ⟨by omega, by omega⟩)]
    exact forall2_map _ _ _ (fun x hx => by
      have hr := bytesToSamples_range bs hb x hx
      exact ulaw_roundtrip_sample x hr.1 hr.2)

/-- Witness for C6 at the two-byte buffer `[0, 0]`. -/
theorem C6_witness :
    ∃ us, pcm16_to_ulaw [0, 0] = some us ∧
      (ulaw_to_pcm16 us).length = ([0, 0] : List Nat).length ∧
      List.Forall₂ (fun x y => (y - x).natAbs ≤ stepOfCode (lin2ulawSample x))
        (bytesToSamples [0, 0]) (bytesToSamples (ulaw_to_pcm16 us)) :=
  C6_ulaw_roundtrip_bound [0, 0] (by decide) (by decide) (by decide)

/-- C7: µ-law encoding fails exactly on buffers of odd byte length
(`audioop.error`, the spec's `InvalidFrameLength`); on even byte
length it succeeds and returns half as many bytes. -/
theorem C7_encode_length (bs : List Nat) :
    (bs.length % 2 = 1 → pcm16_to_ulaw bs = none) ∧
    (bs.length % 2 = 0 → ∃ us, pcm16_to_ulaw bs = some us ∧ 2 * us.length = bs.length) := by
  constructor
  · intro h
    unfold pcm16_to_ulaw
    rw [if_neg (by omega)]
  · intro h
    refine ⟨(bytesToSamples bs).map lin2ulawSample, ?_, ?_⟩
    · unfold pcm16_to_ulaw
      rw [if_pos h]
    · rw [List.length_map, bytesToSamples_length]
      omega

/-- Witness for C7: a three-byte buffer is rejected, a two-byte buffer
encodes to one byte. -/
theorem C7_witness :
    pcm16_to_ulaw [0, 0, 0] = none ∧
    ∃ us, pcm16_to_ulaw [0, 0] = some us ∧ 2 * us.length = ([0, 0] : List Nat).length :=
  ⟨(C7_encode_length [0, 0, 0]).1 (by decide), (C7_encode_length [0, 0]).2 (by decide)⟩

/-- C9: base64 framing round trip — decoding the encoding of any byte
buffer gives back the buffer. -/
theorem C9_base64_roundtrip (b : List Nat) (hb : ∀ x ∈ b, x < 256) :
    from_base64 (to_base64 b) = some b :=
  b64_roundtrip_aux b hb

/-- Witness for C9 at `[77, 97, 110]`. -/
theorem C9_witness : from_base64 (to_base64 [77, 97, 110]) = some [77, 97, 110] :=
  C9_base64_roundtrip [77, 97, 110] (by decide)

/-- A `receive_events` dispatch preserves the turn-phase invariant. -/
theorem receive_event_consistent (vr ar tr : Bool) (s : GeminiState)
    (msg : Option GeminiMsg) (h : turnPhaseConsistent s) :
    turnPhaseConsistent (receive_event vr ar tr s msg).state := by
  unfold turnPhaseConsistent at *
  rcases msg with _ | ⟨msc, mset⟩
  · exact h
  rcases msc with _ | ⟨mturn, tc, intr⟩
  · exact h
  rcases mturn with _ | parts
  · unfold receive_event
    dsimp only
    split_ifs <;> simp_all
  · unfold receive_event
    dsimp only
    rcases hpp : processParts ar tr parts with ⟨as_, ts, ok⟩
    dsimp only
    split_ifs <;> simp_all

/-- C1 counterexample: the state with both `user_speaking` and
`bot_speaking` set is reachable — connect, receive one `modelTurn`
message (bot starts speaking), then `send_audio_chunk` sets
`user_speaking` without clearing `bot_speaking`. -/
theorem C1_counterexample :
    GReach { connected := true, user_speaking := true, bot_speaking := true } ∧
    ¬ turnPhaseConsistent
        { connected := true, user_speaking := true, bot_speaking := true } := by
  constructor
  · have h1 : GReach (connectStep geminiInit) := GReach.step GReach.init (GStep.connect _)
    have h2 : GReach (receive_event true true true (connectStep geminiInit)
        (some ⟨some ⟨some [], false, false⟩, false⟩)).state :=
      GReach.step h1 (GStep.recv _ true true true _ rfl)
    have h3 : GReach (send_audio_chunk (receive_event true true true (connectStep geminiInit)
        (some ⟨some ⟨some [], false, false⟩, false⟩)).state [0]).state :=
      GReach.step h2 (GStep.send _ [0] rfl)
    exact h3
  · unfold turnPhaseConsistent
    simp

/-- C1 (amended): every state reachable by `connect` and
`receive_events` dispatch steps — with `send_audio_chunk` called only
while the bot is not speaking — has at most one of the two VAD flags
set, so `turnPhase` is exactly one of Idle, UserSpeaking, BotSpeaking. -/
theorem C1_turn_invariant (s : GeminiState) (h : GReachSafe s) :
    turnPhaseConsistent s := by
  induction h with
  | init => exact Or.inl rfl
  | step hr hstep ih =>
      cases hstep with
      | connect => exact ih
      | send pcm hc hb =>
          unfold send_audio_chunk
          rw [hc]
          simp only [Bool.true_eq_false, if_false]
          exact Or.inr hb
      | recv vr ar tr msg hc => exact receive_event_consistent vr ar tr _ msg ih

/-- Witness for C1 (amended) at the initial state. -/
theorem C1_turn_invariant_witness : turnPhaseConsistent geminiInit :=
  C1_turn_invariant geminiInit GReachSafe.init

/-- C2 counterexample: a message carrying `interrupted: true` together
with a `modelTurn` audio part whose base64 data is invalid (`"A"`)
raises inside the parts loop; the per-message handler swallows the
exception, so the interrupted branch never runs: the state keeps
`bot_speaking = true` and no signal is emitted. -/
theorem C2_counterexample :
    receive_event true true true
        { connected := true, user_speaking := false, bot_speaking := true }
        (some ⟨some ⟨some [⟨some ⟨[97, 117, 100, 105, 111, 47], [65]⟩, none⟩],
                      false, true⟩,
               false⟩)
      = ⟨{ connected := true, user_speaking := false, bot_speaking := true }, [], [], []⟩ := by
  decide

/-- C2 (amended): a message with `serverContent.interrupted == true`
received while the bot is speaking — provided its inline audio parts
all decode (a decode error aborts the dispatch early) — moves the
session to user-speaking, and the registered VAD callback receives
both an `interrupted` and a `turn_complete` signal during the dispatch. -/
theorem C2_interrupted_transition (ar tr mset : Bool) (s : GeminiState)
    (sc : ServerContent) (hint : sc.interrupted = true) (hbot : s.bot_speaking = true)
    (hok : partsOk ar tr sc.modelTurn = true) :
    (receive_event true ar tr s (some ⟨some sc, mset⟩)).state.user_speaking = true ∧
    (receive_event true ar tr s (some ⟨some sc, mset⟩)).state.bot_speaking = false ∧
    VadSig.interrupted ∈ (receive_event true ar tr s (some ⟨some sc, mset⟩)).vad ∧
    VadSig.turn_complete ∈ (receive_event true ar tr s (some ⟨some sc, mset⟩)).vad := by
  rcases sc with ⟨mturn, tc, intr⟩
  cases hint
  rcases mturn with _ | parts
  · unfold receive_event
    dsimp only
    split_ifs <;> simp_all
  · unfold partsOk at hok
    dsimp only at hok
    unfold receive_event
    dsimp only
    rcases hpp : processParts ar tr parts with ⟨as_, ts, ok⟩
    rw [hpp] at hok
    dsimp only at hok
    cases hok
    dsimp only
    split_ifs <;> simp_all

/-- Witness for C2 (amended) on a pure interrupted message. -/
theorem C2_witness :
    (receive_event true true true
        { connected := true, user_speaking := false, bot_speaking := true }
        (some ⟨some { modelTurn := none, turnComplete := false, interrupted := true },
               false⟩)).state.user_speaking = true ∧
    (receive_event true true true
        { connected := true, user_speaking := false, bot_speaking := true }
        (some ⟨some { modelTurn := none, turnComplete := false, interrupted := true },
               false⟩)).state.bot_speaking = false ∧
    VadSig.interrupted ∈ (receive_event true true true
        { connected := true, user_speaking := false, bot_speaking := true }
        (some ⟨some { modelTurn := none, turnComplete := false, interrupted := true },
               false⟩)).vad ∧
    VadSig.turn_complete ∈ (receive_event true true true
        { connected := true, user_speaking := false, bot_speaking := true }
        (some ⟨some { modelTurn := none, turnComplete := false, interrupted := true },
               false⟩)).vad :=
  C2_interrupted_transition true true false _ _ rfl rfl rfl

/-- C4 counterexample: a `modelTurn` message with an empty parts list
(no inline audio at all), received while the bot is not speaking,
still flips `bot_speaking` to true and emits the `user_stopped`
signal, contradicting the claim that only the first *audio part*
triggers the transition. -/
theorem C4_counterexample :
    receive_event true true true
        { connected := true, user_speaking := true, bot_speaking := false }
        (some ⟨some ⟨some [], false, false⟩, false⟩)
      = ⟨{ connected := true, user_speaking := false, bot_speaking := true },
         [VadSig.user_stopped], [], []⟩ := by
  decide

/-- C4 (amended): for a message whose `serverContent` carries
`modelTurn` (and neither `turnComplete` nor `interrupted`), it is the
*first such message* of a bot turn — whether or not any part carries
audio — that flips `bot_speaking` on and emits `user_stopped` exactly
once; while `bot_speaking` is already set, no `user_stopped` is
re-emitted and the flags stay. -/
theorem C4_first_modelTurn (ar tr mset : Bool) (s : GeminiState) (parts : List GPart) :
    (receive_event true ar tr s
        (some ⟨some ⟨some parts, false, false⟩, mset⟩)).state.bot_speaking = true ∧
    (receive_event true ar tr s
        (some ⟨some ⟨some parts, false, false⟩, mset⟩)).vad.count VadSig.user_stopped
      = (if s.bot_speaking = true then 0 else 1) ∧
    (receive_event true ar tr s
        (some ⟨some ⟨some parts, false, false⟩, mset⟩)).state.user_speaking
      = (if s.bot_speaking = true then s.user_speaking else false) := by
  unfold receive_event
  dsimp only
  rcases hpp : processParts ar tr parts with ⟨as_, ts, ok⟩
  dsimp only
  split_ifs <;> simp_all

/-- C5 counterexample: a `send_audio_chunk` call in a connected state
with `user_speaking = false` — where the claim demands a `UserStarted`
event through the registered callback — invokes no callback at all
(the source only writes a debug log line). -/
theorem C5_counterexample :
    ({ connected := true, user_speaking := false, bot_speaking := false }
        : GeminiState).user_speaking = false ∧
    (send_audio_chunk
        { connected := true, user_speaking := false, bot_speaking := false } [0]).vad
      = [] := by
  decide

/-- C5 (amended): in a connected state `send_audio_chunk` marks
`user_speaking := true`, transmits the chunk, fires its user-started
debug log exactly when the flag was previously off (edge-triggered),
and never invokes the VAD callback. -/
theorem C5_send_chunk (s : GeminiState) (pcm : List Nat) (hconn : s.connected = true) :
    (send_audio_chunk s pcm).state.user_speaking = true ∧
    (send_audio_chunk s pcm).state.bot_speaking = s.bot_speaking ∧
    (send_audio_chunk s pcm).state.connected = true ∧
    (send_audio_chunk s pcm).sent = true ∧
    (send_audio_chunk s pcm).vad = [] ∧
    (send_audio_chunk s pcm).logStart = !s.user_speaking := by
  unfold send_audio_chunk
  rw [hconn]
  simp

/-- Witness for C5 (amended). -/
theorem C5_send_chunk_witness :
    (send_audio_chunk { connected := true, user_speaking := false, bot_speaking := true }
        [7]).state.user_speaking = true ∧
    (send_audio_chunk { connected := true, user_speaking := false, bot_speaking := true }
        [7]).state.bot_speaking
      = ({ connected := true, user_speaking := false, bot_speaking := true }
          : GeminiState).bot_speaking ∧
    (send_audio_chunk { connected := true, user_speaking := false, bot_speaking := true }
        [7]).state.connected = true ∧
    (send_audio_chunk { connected := true, user_speaking := false, bot_speaking := true }
        [7]).sent = true ∧
    (send_audio_chunk { connected := true, user_speaking := false, bot_speaking := true }
        [7]).vad = [] ∧
    (send_audio_chunk { connected := true, user_speaking := false, bot_speaking := true }
        [7]).logStart
      = !({ connected := true, user_speaking := false, bot_speaking := true }
          : GeminiState).user_speaking :=
  C5_send_chunk { connected := true, user_speaking := false, bot_speaking := true } [7] rfl

/-- C8: a text frame that is not valid JSON is logged and skipped on
both sockets: the Smartflo dispatch returns the state unchanged with
no deliveries and no loop break, and the Gemini dispatch returns the
state unchanged with no signals, audio or text. -/
theorem C8_malformed_json (cb : Bool) (s : SmartfloState) (vr ar tr : Bool)
    (g : GeminiState) :
    smartfloStep cb s none = (s, [], false) ∧
    receive_event vr ar tr g none = ⟨g, [], [], []⟩ :=
  ⟨rfl, rfl⟩

/-- C3: while streaming (connected with a truthy `stream_sid`),
`send_audio` transmits one `media` message whose payload is the base64
encoding of the input padded with `0xff` silence filler to the next
multiple of 160 bytes (so its decoding is the input followed by the
filler and has length a multiple of 160), and increments the sent
counter by one; otherwise it transmits nothing and leaves the state
unchanged. -/
theorem C3_send_audio_pad (s : SmartfloState) (ulaw : List Nat)
    (hb : ∀ b ∈ ulaw, b < 256) :
    (∀ sid, s.stream_sid = some sid → sid ≠ [] → s.connected = true →
      send_audio s ulaw
          = ({ s with audio_chunks_sent := s.audio_chunks_sent + 1 },
             some { streamSid := sid,
                    payload := b64encode
                      (ulaw ++ List.replicate ((160 - ulaw.length % 160) % 160) 255) }) ∧
        b64decode? (b64encode (ulaw ++ List.replicate ((160 - ulaw.length % 160) % 160) 255))
          = some (ulaw ++ List.replicate ((160 - ulaw.length % 160) % 160) 255) ∧
        (ulaw ++ List.replicate ((160 - ulaw.length % 160) % 160) 255).length % 160 = 0) ∧
    ((s.connected = false ∨ s.stream_sid = none ∨ s.stream_sid = some []) →
      send_audio s ulaw = (s, none)) := by
  constructor
  · intro sid hsid hne hconn
    refine ⟨?_, ?_, ?_⟩
    · unfold send_audio
      rw [hsid]
      dsimp only
      rw [if_neg (by simp [hconn, hne])]
      rcases Nat.eq_zero_or_pos (ulaw.length % 160) with h160 | h160
      · rw [if_neg (by omega)]
        rw [show (160 - ulaw.length % 160) % 160 = 0 from by omega]
        simp
      · rw [if_pos (by omega)]
        rw [show (160 - ulaw.length % 160) % 160 = 160 - ulaw.length % 160 from by
          have : ulaw.length % 160 < 160 := Nat.mod_lt _ (by norm_num)
          omega]
    · apply b64_roundtrip_aux
      intro b hbmem
      rcases List.mem_append.mp hbmem with h | h
      · exact hb b h
      · rw [List.eq_of_mem_replicate h]
        norm_num
    · rw [List.length_append, List.length_replicate]
      have : ulaw.length % 160 < 160 := Nat.mod_lt _ (by norm_num)
      omega
  · intro h
    unfold send_audio
    rcases hs : s.stream_sid with _ | sid
    · rfl
    · dsimp only
      rcases h with h | h | h
      · rw [if_pos (Or.inl h)]
      · rw [hs] at h
        cases h
      · rw [hs] at h
        have hsid0 : sid = [] := by
          injection h
        rw [if_pos (Or.inr hsid0)]

/-- Witness for C3: a 3-byte frame from a streaming session is padded
to 160 bytes and counted; a disconnected session sends nothing. -/
theorem C3_witness :
    (send_audio ⟨true, some [83], none, 0, 0⟩ [1, 2, 3]
        = (⟨true, some [83], none, 0, 0 + 1⟩,
           some ⟨[83], b64encode ([1, 2, 3] ++ List.replicate ((160 - ([1, 2, 3] : List Nat).length % 160) % 160) 255)⟩) ∧
      b64decode? (b64encode ([1, 2, 3] ++ List.replicate ((160 - ([1, 2, 3] : List Nat).length % 160) % 160) 255))
        = some ([1, 2, 3] ++ List.replicate ((160 - ([1, 2, 3] : List Nat).length % 160) % 160) 255) ∧
      (([1, 2, 3] : List Nat) ++ List.replicate ((160 - ([1, 2, 3] : List Nat).length % 160) % 160) 255).length % 160 = 0) ∧
    send_audio ⟨false, none, none, 0, 0⟩ [1, 2, 3] = (⟨false, none, none, 0, 0⟩, none) :=
  ⟨(C3_send_audio_pad ⟨true, some [83], none, 0, 0⟩ [1, 2, 3] (by decide)).1
      [83] rfl (by decide) rfl,
   (C3_send_audio_pad ⟨false, none, none, 0, 0⟩ [1, 2, 3] (by decide)).2 (Or.inl rfl)⟩

/-- C10: a `media` event never breaks the read loop; a missing or
empty payload (and a payload whose base64 decode raises) changes no
state and delivers nothing; only a non-empty payload that decodes
successfully increments `audio_chunks_received` and hands the decoded
bytes to the registered audio callback. -/
theorem C10_media_edge (cb : Bool) (s : SmartfloState) (payload : Option (List Nat)) :
    (smartfloStep cb s (some (SfEvent.media payload))).2.2 = false ∧
    (payload = none → handle_media cb s payload = (s, [])) ∧
    (payload = some [] → handle_media cb s payload = (s, [])) ∧
    (∀ p, payload = some p → b64decode? p = none → handle_media cb s payload = (s, [])) ∧
    (∀ p a, payload = some p → p ≠ [] → b64decode? p = some a →
      handle_media cb s payload
        = ({ s with audio_chunks_received := s.audio_chunks_received + 1 },
           if cb then [a] else [])) := by
  refine ⟨?_, ?_, ?_, ?_, ?_⟩
  · rcases hm : handle_media cb s payload with ⟨s', outs⟩
    simp [smartfloStep, hm]
  · rintro rfl
    rfl
  · rintro rfl
    rfl
  · rintro p rfl hdec
    unfold handle_media
    rcases p with _ | ⟨b, bs⟩
    · rfl
    · dsimp only
      rw [if_neg (by simp), hdec]
  · rintro p a rfl hne hdec
    unfold handle_media
    dsimp only
    rw [if_neg hne, hdec]

/-- Witness for C10: an absent payload is a no-op, an undecodable
payload (`"A"`) is a no-op, and the payload `"BA=="` decodes to one
byte which is counted and delivered. -/
theorem C10_witness :
    handle_media true smartfloInit none = (smartfloInit, []) ∧
    handle_media true smartfloInit (some [65]) = (smartfloInit, []) ∧
    handle_media true smartfloInit (some [66, 65, 61, 61])
      = ({ smartfloInit with audio_chunks_received := smartfloInit.audio_chunks_received + 1 },
         if true then [[4]] else []) :=
  ⟨(C10_media_edge true smartfloInit none).2.1 rfl,
   (C10_media_edge true smartfloInit (some [65])).2.2.2.1 [65] rfl (by decide),
   (C10_media_edge true smartfloInit (some [66, 65, 61, 61])).2.2.2.2
      [66, 65, 61, 61] [4] rfl (by decide) (by decide)⟩
